import Mathlib

/-!
Shallow embedding of the ndownloader core (cache.rs, scanner.rs, ui/mod.rs and
the spec-described download queue) and proofs of the claimed properties.

Time is modelled in whole seconds as `Nat` (Rust `Instant`/`Duration`); an
entry's `elapsed()` at time `now` is the saturating difference `now - timestamp`,
matching the monotonic clock (`now` is never before the stamp in any real run,
and Rust's `duration_since` saturates at zero).  Rust `String`s are modelled as
`List Char`; `f64` durations are modelled as exact rationals `ℚ` (the claims
only concern order comparisons against the literal tolerance 5.0).
-/

/-- Rust strings, modelled as their character lists. -/
abbrev Str := List Char

namespace RustStr

/-- Whether `needle` is an initial segment of `hay`. -/
def startsWithSub : Str → Str → Bool
  | _, [] => true
  | [], _ :: _ => false
  | h :: hs, n :: ns => h == n && startsWithSub hs ns

/-- Rust `str::contains(needle)`: substring containment. -/
def containsSub : Str → Str → Bool
  | [], needle => needle.isEmpty
  | hay@(_ :: rest), needle => startsWithSub hay needle || containsSub rest needle

/-- Rust `str::trim_end_matches('/')`: drop every trailing slash. -/
def trimEndSlashes (s : Str) : Str :=
  (s.reverse.dropWhile (fun c => c == '/')).reverse

/-- Split a string at every newline character, keeping empty pieces
(`"a\n"` gives `["a", ""]`). -/
def splitOnNl : Str → List Str
  | [] => [[]]
  | c :: rest =>
    let tailParts := splitOnNl rest
    if c == '\n' then [] :: tailParts
    else match tailParts with
      | [] => [[c]]
      | p :: ps => (c :: p) :: ps

/-- Strip one trailing carriage return, as Rust `str::lines` does per line. -/
def stripCr (s : Str) : Str :=
  match s.reverse with
  | '\r' :: rest => rest.reverse
  | _ => s

/-- Rust `str::lines()`: split on `'\n'`, drop a final empty piece, and strip a
trailing `'\r'` from each line. -/
def rustLines (s : Str) : List Str :=
  let parts := splitOnNl s
  let parts := if parts.getLast? = some [] then parts.dropLast else parts
  parts.map stripCr

/-- Rust `str::trim()`: drop whitespace from both ends. -/
def rustTrim (s : Str) : Str :=
  ((s.dropWhile Char.isWhitespace).reverse.dropWhile Char.isWhitespace).reverse

end RustStr

/-! ## cache.rs — `Cache<T>`

`Cache` keeps a map from string keys to `CacheEntry { value, timestamp }`
plus a snapshot file holding only the key → value map.  The in-memory map and
the disk snapshot are both modelled as partial functions. -/

namespace Cache

/-- In-memory entry: `CacheEntry { value, timestamp }` (timestamp in seconds). -/
structure Entry (T : Type) where
  value : T
  timestamp : Nat
deriving DecidableEq, Repr

/-- The cache state: the in-memory map, the snapshot-file contents (the file
maps keys to bare values), and the fixed TTL in seconds. -/
structure State (T : Type) where
  data : Str → Option (Entry T)
  disk : Str → Option T
  default_ttl : Nat

/-- Rust `Cache::load_from_disk` (cache.rs:58-73): read the key → value snapshot and
stamp every entry with the current time. -/
def load_from_disk {T : Type} (disk : Str → Option T) (now : Nat) :
    Str → Option (Entry T) :=
  fun k => (disk k).map fun v => { value := v, timestamp := now }

/-- Rust `Cache::new` (cache.rs:22-29): load the snapshot (empty on failure — a
missing or unparsable file is modelled as the empty map) and install the TTL. -/
def new {T : Type} (disk : Str → Option T) (now ttl : Nat) : State T :=
  { data := load_from_disk disk now, disk := disk, default_ttl := ttl }

/-- Rust `Cache::get` (cache.rs:31-40): the value, provided the entry exists and its
age is strictly below the TTL. -/
def get {T : Type} (c : State T) (key : Str) (now : Nat) : Option T :=
  (c.data key).bind fun entry =>
    if now - entry.timestamp < c.default_ttl then some entry.value else none

/-- Rust `Cache::save_to_disk` (cache.rs:75-84): rewrite the snapshot with the
key → value projection of the in-memory map. -/
def save_to_disk {T : Type} (data : Str → Option (Entry T)) : Str → Option T :=
  fun k => (data k).map Entry.value

/-- Rust `Cache::set` (cache.rs:42-56): insert the entry with a fresh timestamp,
then rewrite the snapshot (a write failure is logged, not surfaced; the success
path is modelled). -/
def set {T : Type} [DecidableEq T] (c : State T) (key : Str) (value : T)
    (now : Nat) : State T :=
  let data := Function.update c.data key (some { value := value, timestamp := now })
  { c with data := data, disk := save_to_disk data }

/-- Modelled from the spec: `Cache::clear` is called by `tests::test_cache_clear`
(cache.rs:102-115) but its definition is not under src/.  Per spec §4.2 it
"removes all entries from the in-memory store (and must also clear/rewrite the
persisted snapshot to keep the two consistent)". -/
def clear {T : Type} (c : State T) : State T :=
  let data : Str → Option (Entry T) := fun _ => none
  { c with data := data, disk := save_to_disk data }

end Cache

/-- C1 sanity: a set entry is visible right away. -/
example :
    Cache.get (Cache.set (Cache.new (T := Nat) (fun _ => none) 0 3600)
      "key1".toList 7 5) "key1".toList 6 = some 7 := by
  decide

/-- C1: `set(k, v)` then `get(k)` strictly inside the TTL returns `Some v`;
once the TTL has elapsed it returns `None`; a key never set returns `None`. -/
theorem cache_set_get_ttl {T : Type} [DecidableEq T] (c : Cache.State T)
    (k : Str) (v : T) (tset tget : Nat) :
    (tget - tset < c.default_ttl →
      Cache.get (Cache.set c k v tset) k tget = some v) ∧
    (c.default_ttl ≤ tget - tset →
      Cache.get (Cache.set c k v tset) k tget = none) ∧
    (∀ key now, c.data key = none → Cache.get c key now = none) := by
  refine ⟨fun h => ?_, fun h => ?_, fun key now h => ?_⟩
  · simp [Cache.get, Cache.set, Function.update, h]
  · simp [Cache.get, Cache.set, Function.update, Nat.not_lt.mpr h]
  · simp [Cache.get, h]

/-- Witness for `cache_set_get_ttl` at a concrete cache and times. -/
theorem cache_set_get_ttl_witness :
    Cache.get (Cache.set (Cache.new (T := Nat) (fun _ => none) 0 3600)
      "key1".toList 7 5) "key1".toList 6 = some 7 ∧
    Cache.get (Cache.set (Cache.new (T := Nat) (fun _ => none) 0 3600)
      "key1".toList 7 5) "key1".toList 3700 = none ∧
    Cache.get (Cache.new (T := Nat) (fun _ => none) 0 3600)
      "nonexistent".toList 0 = none := by
  obtain ⟨h1, h2, h3⟩ :=
    cache_set_get_ttl (Cache.new (T := Nat) (fun _ => none) 0 3600)
      "key1".toList 7 5 6
  obtain ⟨-, h2', -⟩ :=
    cache_set_get_ttl (Cache.new (T := Nat) (fun _ => none) 0 3600)
      "key1".toList 7 5 3700
  exact ⟨h1 (by decide), h2' (by decide), h3 "nonexistent".toList 0 rfl⟩

/-! ## UTF-8 validation

`scan_channel_videos` runs the captured stdout bytes through Rust's
`String::from_utf8` (scanner.rs:129), which accepts exactly the well-formed
UTF-8 byte sequences (no overlong forms, no surrogates, nothing above
`0x10FFFF`).  The decoder below follows that definition byte for byte. -/

namespace Utf8

/-- Whether a byte is a UTF-8 continuation byte (`10xxxxxx`). -/
def isCont (b : Nat) : Bool :=
  decide (0x80 ≤ b ∧ b ≤ 0xBF)

/-- Decode a byte list as strict UTF-8, as Rust `String::from_utf8` does;
`none` on any ill-formed sequence. -/
def decode : List Nat → Option (List Char)
  | [] => some []
  | b :: rest =>
    if b < 0x80 then
      (decode rest).map (fun cs => Char.ofNat b :: cs)
    else if b < 0xC2 then
      none
    else if b ≤ 0xDF then
      match rest with
      | b1 :: rest2 =>
        if isCont b1 then
          (decode rest2).map (fun cs => Char.ofNat ((b - 0xC0) * 0x40 + (b1 - 0x80)) :: cs)
        else none
      | [] => none
    else if b ≤ 0xEF then
      match rest with
      | b1 :: b2 :: rest2 =>
        if isCont b1 && isCont b2 &&
            !(b == 0xE0 && b1 < 0xA0) && !(b == 0xED && b1 > 0x9F) then
          (decode rest2).map (fun cs =>
            Char.ofNat ((b - 0xE0) * 0x1000 + (b1 - 0x80) * 0x40 + (b2 - 0x80)) :: cs)
        else none
      | _ => none
    else if b ≤ 0xF4 then
      match rest with
      | b1 :: b2 :: b3 :: rest2 =>
        if isCont b1 && isCont b2 && isCont b3 &&
            !(b == 0xF0 && b1 < 0x90) && !(b == 0xF4 && b1 > 0x8F) then
          (decode rest2).map (fun cs =>
            Char.ofNat ((b - 0xF0) * 0x40000 + (b1 - 0x80) * 0x1000 +
              (b2 - 0x80) * 0x40 + (b3 - 0x80)) :: cs)
        else none
      | _ => none
    else none

end Utf8

/-! ## scanner.rs — `VideoScanner` -/

namespace VideoScanner

/-- Rust `VideoMetadata` (scanner.rs:9-20); `duration` is `f64`, modelled as ℚ. -/
structure VideoMetadata where
  id : Str
  title : Str
  url : Str
  duration : Option ℚ
  upload_date : Option Str
  uploader : Option Str
deriving DecidableEq, Repr

/-- Rust `CacheEntry` of the scanner (scanner.rs:22-27): the listed videos and
the insertion instant. -/
structure CacheEntry where
  videos : List VideoMetadata
  timestamp : Nat
deriving DecidableEq, Repr

/-- Rust `VideoScanner` (scanner.rs:52-57): fixed storage roots, the inline
video-list cache, its TTL, and the per-file duration memo. -/
structure State where
  storage_paths : List Str
  cache : Str → Option CacheEntry
  cache_duration : Nat
  file_durations_cache : Str → Option ℚ

/-- Rust `VideoScanner::new` (scanner.rs:60-72): three fixed roots, a 300-second
TTL, an empty duration memo, and the cache loaded from disk. -/
def new (loadedCache : Str → Option CacheEntry) : State :=
  { storage_paths :=
      ["/run/mount/ve_stock_1".toList, "/run/mount/ve_stock_2".toList,
        "/run/mount/ve_ext_1".toList],
    cache := loadedCache,
    cache_duration := 300,
    file_durations_cache := fun _ => none }

/-- URL normalization inside `scan_channel_videos` (scanner.rs:92-96): append
`"/videos"` (after trimming trailing slashes) exactly when the URL contains
`"twitch.tv"` but not `"/videos"`. -/
def normalizeUrl (channel_url : Str) : Str :=
  if RustStr.containsSub channel_url "twitch.tv".toList &&
      !RustStr.containsSub channel_url "/videos".toList then
    RustStr.trimEndSlashes channel_url ++ "/videos".toList
  else
    channel_url

/-- Captured result of the `yt-dlp` subprocess (scanner.rs:111-122): exit
status, raw stdout bytes, decoded stderr text. -/
structure ProcOutput where
  success : Bool
  stdout : List Nat
  stderr : Str
deriving DecidableEq, Repr

/-- The two error exits of `scan_channel_videos`: `yt-dlp` non-zero exit
(scanner.rs:124-127) and stdout that is not valid UTF-8 (scanner.rs:129). -/
inductive ScanError where
  | ytDlpFailed (stderr : Str)
  | invalidUtf8
deriving DecidableEq, Repr

/-- Per-line parsing loop (scanner.rs:133-147): blank lines are skipped, lines
that parse contribute a record, lines that fail to parse are logged and
skipped.  `parse` stands for `serde_json::from_str::<VideoMetadata>`. -/
def parseLines (parse : Str → Option VideoMetadata) (lines : List Str) :
    List VideoMetadata :=
  lines.filterMap fun line =>
    if (RustStr.rustTrim line).isEmpty then none else parse line

/-- Rust `VideoScanner::scan_channel_videos` (scanner.rs:88-162).  `parse` is
the JSON decoder, `run` the `yt-dlp` subprocess (keyed by the URL it is given),
`now` the current instant.  Returns the result, the updated scanner state, and
the number of subprocess invocations performed (0 or 1). -/
def scan_channel_videos (parse : Str → Option VideoMetadata)
    (run : Str → ProcOutput) (st : State) (channel_url : Str) (now : Nat) :
    Except ScanError (List VideoMetadata) × State × Nat :=
  let url := normalizeUrl channel_url
  let hit : Option (List VideoMetadata) :=
    match st.cache url with
    | some entry =>
      if now - entry.timestamp < st.cache_duration then some entry.videos else none
    | none => none
  match hit with
  | some videos => (.ok videos, st, 0)
  | none =>
    let output := run url
    if !output.success then
      (.error (.ytDlpFailed output.stderr), st, 1)
    else
      match Utf8.decode output.stdout with
      | none => (.error .invalidUtf8, st, 1)
      | some stdoutStr =>
        let videos := parseLines parse (RustStr.rustLines stdoutStr)
        (.ok videos,
          { st with cache := Function.update st.cache url (some ⟨videos, now⟩) }, 1)

end VideoScanner

example :
    VideoScanner.normalizeUrl "https://twitch.tv/foo/".toList =
      "https://twitch.tv/foo/videos".toList := by decide

example :
    VideoScanner.normalizeUrl "https://twitch.tv/foo/videos".toList =
      "https://twitch.tv/foo/videos".toList := by decide

example :
    VideoScanner.normalizeUrl "https://youtube.com/@foo".toList =
      "https://youtube.com/@foo".toList := by decide

example : Utf8.decode [0x61, 0x0A, 0x62] = some ['a', '\n', 'b'] := by decide

example : Utf8.decode [0xFF] = none := by decide

namespace VideoScanner

/-- Filesystem and probe oracles used by `is_video_downloaded`:
`read_dir` lists a directory's entry paths in iteration order (`none` when the
directory cannot be read), `is_file` is `Path::is_file`, and `ffprobe` is
`VideoScanner::get_video_duration` (scanner.rs:223-241), `none` when the
duration cannot be probed. -/
structure Fs where
  read_dir : Str → Option (List Str)
  is_file : Str → Bool
  ffprobe : Str → Option ℚ

/-- Rust `format!("{}/{}", a, b)` as used for channel paths (scanner.rs:174). -/
def pathJoin (a b : Str) : Str := a ++ '/' :: b

/-- Inner loop of `is_video_downloaded` over one directory's entries
(scanner.rs:179-213): skip non-files, take the duration from the memo or else
probe and memoize it (skipping files that cannot be probed), and return the
first path whose duration is strictly within 5.0 seconds of the target. -/
def scanDirEntries (fs : Fs) (target : ℚ) :
    List Str → (Str → Option ℚ) → Option Str × (Str → Option ℚ)
  | [], memo => (none, memo)
  | p :: ps, memo =>
    if !fs.is_file p then scanDirEntries fs target ps memo
    else
      match memo p with
      | some d =>
        if |d - target| < 5 then (some p, memo)
        else scanDirEntries fs target ps memo
      | none =>
        match fs.ffprobe p with
        | some d =>
          let memo2 := Function.update memo p (some d)
          if |d - target| < 5 then (some p, memo2)
          else scanDirEntries fs target ps memo2
        | none => scanDirEntries fs target ps memo

/-- Outer loop of `is_video_downloaded` over the storage roots
(scanner.rs:173-217): non-existent channel directories are skipped; the first
match in root order stops the search. -/
def scanStorageRoots (fs : Fs) (target : ℚ) (channel_name : Str) :
    List Str → (Str → Option ℚ) → Option Str × (Str → Option ℚ)
  | [], memo => (none, memo)
  | root :: roots, memo =>
    match fs.read_dir (pathJoin root channel_name) with
    | some entries =>
      match scanDirEntries fs target entries memo with
      | (some p, memo2) => (some p, memo2)
      | (none, memo2) => scanStorageRoots fs target channel_name roots memo2
    | none => scanStorageRoots fs target channel_name roots memo

/-- Rust `VideoScanner::is_video_downloaded` (scanner.rs:165-220): `none` at
once when no target duration is given, otherwise the first local file whose
duration is strictly within 5.0 seconds of the target, together with the
updated duration memo. -/
def is_video_downloaded (fs : Fs) (st : State) (channel_name : Str)
    (duration : Option ℚ) : Option Str × State :=
  match duration with
  | none => (none, st)
  | some target =>
    let res := scanStorageRoots fs target channel_name st.storage_paths
      st.file_durations_cache
    (res.1, { st with file_durations_cache := res.2 })

/-- Specification-side view for C3: the duration a file would be credited with
— the memoized one if present, else the probed one. -/
def effectiveDuration (fs : Fs) (memo : Str → Option ℚ) (p : Str) : Option ℚ :=
  match memo p with
  | some d => some d
  | none => fs.ffprobe p

/-- Specification-side view for C3: a regular file matches when its effective
duration is strictly within 5.0 seconds of the target. -/
def durationMatches (fs : Fs) (memo : Str → Option ℚ) (target : ℚ) (p : Str) :
    Bool :=
  fs.is_file p &&
    match effectiveDuration fs memo p with
    | some d => decide (|d - target| < 5)
    | none => false

/-- Specification-side view for C3: all directory entries under
`root/channel_name` across the storage roots, in the fixed iteration order. -/
def allChannelFiles (fs : Fs) (channel_name : Str) (roots : List Str) :
    List Str :=
  (roots.map fun root => (fs.read_dir (pathJoin root channel_name)).getD []).flatten

/-- Rust `VideoScanner::find_best_storage_path` (scanner.rs:244-253): the first
storage root that exists, else a descriptive error.  `pathExists` is
`Path::exists`. -/
def find_best_storage_path (pathExists : Str → Bool) : List Str → Except Str Str
  | [] => .error "Aucun disque de stockage disponible".toList
  | p :: ps =>
    if pathExists p then .ok p else find_best_storage_path pathExists ps

end VideoScanner

namespace VideoScanner

/-- Rust `instant_serde::serialize` (scanner.rs:33-39): a timestamp is
persisted as its elapsed whole seconds at save time. -/
def instant_serde_save (timestamp saveTime : Nat) : Nat :=
  saveTime - timestamp

/-- Rust `instant_serde::deserialize` (scanner.rs:41-47): the persisted elapsed
seconds are subtracted from the load-time instant, reconstructing the original
insertion time. -/
def instant_serde_load (elapsed loadTime : Nat) : Nat :=
  loadTime - elapsed

end VideoScanner

/-! ## The download queue and the UI cancellation path

`downloader_queue.rs` and `notifications.rs` are declared in main.rs but are
not present under src/; the queue is therefore modelled from the spec (§4.3).
The UI-side `cancel_download` is embedded from ui/mod.rs. -/

namespace DownloadQueue

/-- Task lifecycle states per spec §4.3: `Queued -> Running ->
{Succeeded | Failed | Cancelled}`. -/
inductive TaskState where
  | queued
  | running
  | succeeded
  | failed (reason : Str)
  | cancelled
deriving DecidableEq, Repr

/-- Whether a state is terminal (no task re-enters Running). -/
def TaskState.isTerminal : TaskState → Bool
  | .succeeded => true
  | .failed _ => true
  | .cancelled => true
  | _ => false

/-- Spec §3 `DownloadTask`: keyed by the video URL, with display name,
destination path, state, progress and optional speed/eta strings. -/
structure DownloadTask where
  key : Str
  display_name : Str
  destination_path : Str
  state : TaskState
  progress : ℚ
  speed : Option Str
  eta : Option Str
deriving DecidableEq, Repr

/-- Queue state: the tracked tasks, and the currently running download
subprocesses as (video URL, destination path) pairs. -/
structure State where
  tasks : List DownloadTask
  procs : List (Str × Str)
deriving DecidableEq, Repr

/-- Modelled from the spec: `DownloadQueue::add_download` lives in
`downloader_queue.rs`, which main.rs declares but which is not under src/.
Spec §4.3: it registers a task keyed by `video_url`, transitions it to Running
and spawns the download subprocess; a second request for the same `video_url`
while the first is non-terminal is rejected rather than spawning a second
subprocess. -/
def add_download (q : State) (display_name video_url _filename
    destination_path : Str) : Except Str State :=
  if q.tasks.any fun t => t.key == video_url && !t.state.isTerminal then
    .error "download already in progress".toList
  else
    .ok
      { tasks := q.tasks ++
          [{ key := video_url, display_name := display_name,
             destination_path := destination_path, state := .running,
             progress := 0, speed := none, eta := none }],
        procs := q.procs ++ [(video_url, destination_path)] }

end DownloadQueue

namespace NDownloaderApp

/-- Rust `DownloadingVideo` (ui/mod.rs:45-52): the UI descriptor of the
download currently shown in the overlay. -/
structure DownloadingVideo where
  url : Str
  channel_name : Str
  progress : ℚ
  speed : Option Str
  eta : Option Str
deriving DecidableEq, Repr

/-- The fields of `NDownloaderApp` (ui/mod.rs:32-43) that the download
lifecycle touches: the overlay input (present = overlay open, holding the typed
filename), the overlay descriptor, the set of in-flight video URLs, and the
download queue. -/
structure AppState where
  download_input : Option Str
  download_video : Option DownloadingVideo
  downloading_videos : List Str
  download_queue : DownloadQueue.State
deriving DecidableEq, Repr

/-- Rust `NDownloaderApp::cancel_download` (ui/mod.rs:311-315): it sets
`download_input` and `download_video` to `None` and notifies the UI — nothing
else.  The queue, its tasks and its subprocesses are untouched. -/
def cancel_download (s : AppState) : AppState :=
  { s with download_input := none, download_video := none }

end NDownloaderApp

/-- C7: after `clear()` every `get` returns `None`, the in-memory store is
empty, and the persisted snapshot is the (empty) projection of the store, so
disk and memory stay consistent. -/
theorem cache_clear_spec {T : Type} (c : Cache.State T) :
    (∀ k now, Cache.get (Cache.clear c) k now = none) ∧
    (∀ k, (Cache.clear c).data k = none) ∧
    (Cache.clear c).disk = Cache.save_to_disk (Cache.clear c).data := by
  exact ⟨fun k now => rfl, fun k => rfl, rfl⟩

/-- C8: a cache instance built on the snapshot written by a prior instance has
the same key → value mapping; every reloaded entry is stamped with the new
construction time (the documented age-reset policy); and `set` always leaves
the snapshot equal to the value projection of the in-memory map. -/
theorem cache_persistence_round_trip {T : Type} [DecidableEq T]
    (c : Cache.State T) (now2 ttl2 : Nat)
    (hsync : c.disk = Cache.save_to_disk c.data) :
    (∀ k, ((Cache.new c.disk now2 ttl2).data k).map Cache.Entry.value =
      (c.data k).map Cache.Entry.value) ∧
    (∀ k e, (Cache.new c.disk now2 ttl2).data k = some e →
      e.timestamp = now2) ∧
    (∀ k v t, (Cache.set c k v t).disk =
      Cache.save_to_disk (Cache.set c k v t).data) := by
  refine ⟨fun k => ?_, fun k e he => ?_, fun k v t => rfl⟩
  · rw [hsync]
    cases h : c.data k <;>
      simp [Cache.new, Cache.load_from_disk, Cache.save_to_disk, h]
  · simp only [Cache.new, Cache.load_from_disk] at he
    obtain ⟨v', -, rfl⟩ := Option.map_eq_some'.mp he
    rfl

/-- Witness for `cache_persistence_round_trip`: a prior instance that stored
`"k1" ↦ 5` round-trips through its snapshot. -/
theorem cache_persistence_round_trip_witness :
    ((Cache.new (Cache.set (Cache.new (T := Nat) (fun _ => none) 0 3600)
        "k1".toList 5 10).disk 100 3600).data "k1".toList).map
      Cache.Entry.value = some 5 := by
  have h :=
    (cache_persistence_round_trip
      (Cache.set (Cache.new (T := Nat) (fun _ => none) 0 3600) "k1".toList 5 10)
      100 3600 rfl).1 "k1".toList
  exact h.trans (by decide)

/-- C10: the generic cache's snapshot stores no age, and `Cache::new` stamps
every loaded entry with the construction time, so a persisted entry is served
for one full TTL from construction regardless of its pre-restart age; the
scanner's inline cache instead persists elapsed seconds and
`instant_serde::deserialize` reconstructs the original insertion time (its age
at load time equals its age at save time, and a load at the save instant
restores the timestamp exactly). -/
theorem restart_age_policy {T : Type} (disk : Str → Option T)
    (now ttl : Nat) (k : Str) (v : T) (t : Nat)
    (hk : disk k = some v) (hfresh : t - now < ttl) :
    Cache.get (Cache.new disk now ttl) k t = some v ∧
    (∀ e, (Cache.new disk now ttl).data k = some e → e.timestamp = now) ∧
    (∀ t0 s d : Nat, t0 ≤ s → s ≤ d →
      d - VideoScanner.instant_serde_load
        (VideoScanner.instant_serde_save t0 s) d = s - t0) ∧
    (∀ t0 s : Nat, t0 ≤ s →
      VideoScanner.instant_serde_load
        (VideoScanner.instant_serde_save t0 s) s = t0) := by
  refine ⟨?_, fun e he => ?_, fun t0 s d h0 hsd => ?_, fun t0 s h0 => ?_⟩
  · simp [Cache.get, Cache.new, Cache.load_from_disk, hk, hfresh]
  · simp only [Cache.new, Cache.load_from_disk] at he
    obtain ⟨v', -, rfl⟩ := Option.map_eq_some'.mp he
    rfl
  · simp only [VideoScanner.instant_serde_load, VideoScanner.instant_serde_save]
    omega
  · simp only [VideoScanner.instant_serde_load, VideoScanner.instant_serde_save]
    omega

/-- Witness for `restart_age_policy`: an entry of arbitrary pre-restart age is
served for a full TTL after reconstruction, and the scanner-side timestamp
round-trips exactly. -/
theorem restart_age_policy_witness :
    Cache.get (Cache.new (T := Nat)
      (fun key => if key = "k1".toList then some 9 else none) 1000 3600)
      "k1".toList 4599 = some 9 ∧
    VideoScanner.instant_serde_load
      (VideoScanner.instant_serde_save 42 1000) 1000 = 42 := by
  have h := restart_age_policy
    (T := Nat) (fun key => if key = "k1".toList then some 9 else none)
    1000 3600 "k1".toList 9 4599 (by decide) (by decide)
  exact ⟨h.1, h.2.2.2 42 1000 (by decide)⟩

/-- C5: after `add_download` accepts a request for a video URL, a second
request for the same URL while the first is non-terminal is rejected (no new
state, hence no second subprocess), and the accepted request spawned exactly
one subprocess for that URL. -/
theorem add_download_single_flight (q : DownloadQueue.State)
    (n1 u f1 d1 n2 f2 d2 : Str) (q' : DownloadQueue.State)
    (hadd : DownloadQueue.add_download q n1 u f1 d1 = .ok q') :
    DownloadQueue.add_download q' n2 u f2 d2 =
      .error "download already in progress".toList ∧
    q'.procs = q.procs ++ [(u, d1)] ∧
    q'.procs.countP (fun pr => pr.1 == u) =
      q.procs.countP (fun pr => pr.1 == u) + 1 := by
  unfold DownloadQueue.add_download at hadd
  split at hadd
  · exact absurd hadd (by simp)
  · rename_i hnone
    have hq' : q' =
        { tasks := q.tasks ++
              [{ key := u, display_name := n1, destination_path := d1,
                 state := .running, progress := 0, speed := none,
                 eta := none }],
          procs := q.procs ++ [(u, d1)] } := by
      cases hadd
      rfl
    subst hq'
    refine ⟨?_, rfl, ?_⟩
    · unfold DownloadQueue.add_download
      split
      · rfl
      · rename_i hany
        exact absurd (by simp [DownloadQueue.TaskState.isTerminal]) hany
    · simp [List.countP_append, List.countP_cons]

/-- A sample accepted download task, used by the single-flight witness. -/
def demoTask : DownloadQueue.DownloadTask :=
  { key := "https://t/v1".toList, display_name := "a".toList,
    destination_path := "/x/a.mp4".toList, state := .running,
    progress := 0, speed := none, eta := none }

/-- The queue state after `demoTask` was accepted from the empty queue. -/
def demoQueue : DownloadQueue.State :=
  { tasks := [demoTask],
    procs := [("https://t/v1".toList, "/x/a.mp4".toList)] }

/-- Witness for `add_download_single_flight` from the empty queue. -/
theorem add_download_single_flight_witness :
    DownloadQueue.add_download demoQueue
      "b".toList "https://t/v1".toList "b".toList "/x/b.mp4".toList =
      .error "download already in progress".toList := by
  have h := add_download_single_flight { tasks := [], procs := [] }
    "a".toList "https://t/v1".toList "a".toList "/x/a.mp4".toList
    "b".toList "b".toList "/x/b.mp4".toList demoQueue (by rfl)
  exact h.1

/-- An app state in which `demoTask` is running and the download overlay is
open — the situation in which the user requests a cancellation. -/
def cancelDemoApp : NDownloaderApp.AppState :=
  { download_input := some "a".toList,
    download_video := some
      ⟨"https://t/v1".toList, "chan".toList, 0, none, none⟩,
    downloading_videos := ["https://t/v1".toList],
    download_queue := demoQueue }

/-- C6 (code bug): `NDownloaderApp::cancel_download` only clears the overlay
input and the UI descriptor; the download queue, its tasks and its running
subprocesses are untouched, so a cancellation leaves the download job running
and no task ever reaches `Cancelled`. -/
theorem cancel_download_leaves_job_running :
    (∀ s : NDownloaderApp.AppState,
      (NDownloaderApp.cancel_download s).download_queue = s.download_queue ∧
      (NDownloaderApp.cancel_download s).downloading_videos =
        s.downloading_videos ∧
      (NDownloaderApp.cancel_download s).download_input = none ∧
      (NDownloaderApp.cancel_download s).download_video = none) ∧
    (NDownloaderApp.cancel_download cancelDemoApp).download_queue =
      demoQueue ∧
    (NDownloaderApp.cancel_download cancelDemoApp).download_queue.tasks.all
      (fun t => t.state == .running) = true := by
  exact ⟨fun s => ⟨rfl, rfl, rfl, rfl⟩, rfl, by decide⟩

/-- C9: `find_best_storage_path` returns the first configured root that
exists; it fails with the descriptive error exactly when no root exists; and
when exactly one root exists that one is returned regardless of the others. -/
theorem find_best_storage_path_spec (ex : Str → Bool) :
    (∀ paths, VideoScanner.find_best_storage_path ex paths =
      match paths.find? ex with
      | some p => .ok p
      | none => .error "Aucun disque de stockage disponible".toList) ∧
    (∀ paths, (∀ p ∈ paths, ex p = false) →
      VideoScanner.find_best_storage_path ex paths =
        .error "Aucun disque de stockage disponible".toList) ∧
    (∀ paths p, p ∈ paths → ex p = true →
      (∀ q ∈ paths, q ≠ p → ex q = false) →
      VideoScanner.find_best_storage_path ex paths = .ok p) := by
  have hfind : ∀ paths, VideoScanner.find_best_storage_path ex paths =
      match paths.find? ex with
      | some p => .ok p
      | none => .error "Aucun disque de stockage disponible".toList := by
    intro paths
    induction paths with
    | nil => rfl
    | cons p ps ih =>
      by_cases hp : ex p = true
      · simp [VideoScanner.find_best_storage_path, hp, List.find?]
      · simp only [Bool.not_eq_true] at hp
        simp [VideoScanner.find_best_storage_path, hp, List.find?, ih]
  refine ⟨hfind, fun paths hall => ?_, fun paths p hmem hp huniq => ?_⟩
  · rw [hfind]
    have : paths.find? ex = none := List.find?_eq_none.mpr fun x hx => by
      simp [hall x hx]
    rw [this]
  · rw [hfind]
    have : paths.find? ex = some p := by
      induction paths with
      | nil => cases hmem
      | cons q qs ih =>
        by_cases hq : ex q = true
        · have hqp : q = p := by
            by_contra hne
            exact absurd hq (by simp [huniq q (List.mem_cons_self q qs) hne])
          subst hqp
          simp [List.find?, hq]
        · simp only [Bool.not_eq_true] at hq
          have hpqs : p ∈ qs := by
            rcases List.mem_cons.mp hmem with h | h
            · subst h
              rw [hp] at hq
              cases hq
            · exact h
          simp only [List.find?, hq]
          exact ih hpqs fun r hr hrp => huniq r (List.mem_cons_of_mem q hr) hrp
    rw [this]

/-- Witness for `find_best_storage_path_spec`: with only the second configured
root present, that root is returned; with none present, the descriptive error. -/
theorem find_best_storage_path_spec_witness :
    VideoScanner.find_best_storage_path
      (fun p => p == "/run/mount/ve_stock_2".toList)
      (VideoScanner.new (fun _ => none)).storage_paths =
      .ok "/run/mount/ve_stock_2".toList ∧
    VideoScanner.find_best_storage_path (fun _ => false)
      (VideoScanner.new (fun _ => none)).storage_paths =
      .error "Aucun disque de stockage disponible".toList := by
  constructor
  · exact (find_best_storage_path_spec
      (fun p => p == "/run/mount/ve_stock_2".toList)).2.2
      (VideoScanner.new (fun _ => none)).storage_paths
      "/run/mount/ve_stock_2".toList (by decide) (by decide)
      (by decide)
  · exact (find_best_storage_path_spec (fun _ => false)).2.1
      (VideoScanner.new (fun _ => none)).storage_paths (by simp)

/-- C2: from a state with no cached entry for the normalized URL, a successful
scan invokes the listing subprocess exactly once and stores its result in the
cache under the normalized URL with the call's timestamp; a second call whose
URL normalizes to the same string, within 300 seconds, performs no invocation
and returns the same video list; and normalization appends `"/videos"` (after
trimming trailing slashes) exactly when the URL contains `"twitch.tv"` and not
`"/videos"`. -/
theorem scan_channel_videos_single_flight
    (parse : Str → Option VideoScanner.VideoMetadata)
    (run : Str → VideoScanner.ProcOutput) (st st' : VideoScanner.State)
    (u1 u2 : Str) (t1 t2 : Nat) (vs : List VideoScanner.VideoMetadata)
    (n : Nat)
    (hnorm : VideoScanner.normalizeUrl u1 = VideoScanner.normalizeUrl u2)
    (hmiss : st.cache (VideoScanner.normalizeUrl u1) = none)
    (hdur : st.cache_duration = 300)
    (h1 : VideoScanner.scan_channel_videos parse run st u1 t1 =
      (.ok vs, st', n))
    (_hle : t1 ≤ t2) (hwin : t2 - t1 < 300) :
    n = 1 ∧
    st'.cache (VideoScanner.normalizeUrl u1) = some ⟨vs, t1⟩ ∧
    VideoScanner.scan_channel_videos parse run st' u2 t2 = (.ok vs, st', 0) ∧
    VideoScanner.normalizeUrl u1 =
      (if RustStr.containsSub u1 "twitch.tv".toList &&
          !RustStr.containsSub u1 "/videos".toList then
        RustStr.trimEndSlashes u1 ++ "/videos".toList
      else u1) := by
  simp only [VideoScanner.scan_channel_videos, hmiss] at h1
  by_cases hsucc : (run (VideoScanner.normalizeUrl u1)).success
  · rw [if_neg (by simp [hsucc])] at h1
    cases hdec : Utf8.decode (run (VideoScanner.normalizeUrl u1)).stdout with
    | none =>
      rw [hdec] at h1
      exact absurd h1 (by simp)
    | some s =>
      rw [hdec] at h1
      have hres : Except.ok (ε := VideoScanner.ScanError)
          (VideoScanner.parseLines parse (RustStr.rustLines s)) = .ok vs :=
        congrArg Prod.fst h1
      have hst' := congrArg (fun x =>
        (x : Except VideoScanner.ScanError (List VideoScanner.VideoMetadata) ×
          VideoScanner.State × Nat).2.1) h1
      have hn' : (1 : Nat) = n := congrArg (fun x =>
        (x : Except VideoScanner.ScanError (List VideoScanner.VideoMetadata) ×
          VideoScanner.State × Nat).2.2) h1
      simp only at hst'
      have hvs : VideoScanner.parseLines parse (RustStr.rustLines s) = vs :=
        Except.ok.inj hres
      refine ⟨hn'.symm, ?_, ?_, rfl⟩
      · rw [← hst']
        simp [Function.update_same, hvs]
      · have hcache : st'.cache (VideoScanner.normalizeUrl u2) =
            some ⟨vs, t1⟩ := by
          rw [← hnorm, ← hst']
          simp [Function.update_same, hvs]
        have hdur2 : st'.cache_duration = 300 := by
          rw [← hst']
          exact hdur
        simp only [VideoScanner.scan_channel_videos, hcache, hdur2,
          if_pos hwin]
  · rw [if_pos (by simp [hsucc])] at h1
    exact absurd h1 (by simp)

/-- A fixed metadata record used by the scan witnesses. -/
def demoMeta : VideoScanner.VideoMetadata :=
  { id := "1".toList, title := "t".toList, url := "https://t/v1".toList,
    duration := some 100, upload_date := none, uploader := none }

/-- A JSON-decoder oracle that accepts exactly the line `"v"`. -/
def demoParse : Str → Option VideoScanner.VideoMetadata :=
  fun line => if line = "v".toList then some demoMeta else none

/-- A listing subprocess that succeeds and prints the line `"v"`. -/
def demoRun : Str → VideoScanner.ProcOutput :=
  fun _ => { success := true, stdout := [0x76, 0x0A], stderr := [] }

/-- A freshly constructed scanner (empty cache). -/
def demoScanner : VideoScanner.State := VideoScanner.new fun _ => none

/-- Two spellings of the same Twitch channel URL. -/
def demoU1 : Str := "https://twitch.tv/chan".toList

/-- Second spelling: a trailing slash, normalizing to the same URL. -/
def demoU2 : Str := "https://twitch.tv/chan/".toList

/-- Witness for `scan_channel_videos_single_flight`: after a first successful
scan of `demoU1` at time 5, a scan of `demoU2` at time 100 is served from the
cache with zero subprocess invocations. -/
theorem scan_channel_videos_single_flight_witness :
    VideoScanner.scan_channel_videos demoParse demoRun
      (VideoScanner.scan_channel_videos demoParse demoRun demoScanner
        demoU1 5).2.1 demoU2 100 =
      (.ok [demoMeta],
        (VideoScanner.scan_channel_videos demoParse demoRun demoScanner
          demoU1 5).2.1, 0) := by
  have h := scan_channel_videos_single_flight demoParse demoRun demoScanner
    (VideoScanner.scan_channel_videos demoParse demoRun demoScanner
      demoU1 5).2.1
    demoU1 demoU2 5 100 [demoMeta]
    (VideoScanner.scan_channel_videos demoParse demoRun demoScanner
      demoU1 5).2.2
    (by decide) rfl rfl rfl (by decide) (by decide)
  exact h.2.2.1

/-- A listing subprocess that exits zero but emits the invalid UTF-8 byte
`0xFF` on stdout. -/
def badUtf8Run : Str → VideoScanner.ProcOutput :=
  fun _ => { success := true, stdout := [0xFF], stderr := [] }

/-- C4 counterexample: `scan_channel_videos` has a second fatal path besides a
non-zero subprocess exit — `String::from_utf8(output.stdout)?` (scanner.rs:129).
With a zero exit status and stdout `[0xFF]`, the call returns an error even
though the subprocess succeeded, refuting "returns an error iff the external
listing subprocess exits with non-zero status". -/
theorem scan_error_beyond_nonzero_exit :
    (VideoScanner.scan_channel_videos demoParse badUtf8Run demoScanner
      demoU1 5).1 = .error .invalidUtf8 ∧
    (badUtf8Run (VideoScanner.normalizeUrl demoU1)).success = true := by
  exact ⟨rfl, rfl⟩

/-- Helper: filtering with a skip-condition folded into a `filterMap` is the
`filterMap` of the filtered list. -/
theorem filterMap_if_skip {α β : Type} (p : α → Bool) (f : α → Option β)
    (l : List α) :
    (l.filterMap fun a => if p a then none else f a) =
      (l.filter fun a => !p a).filterMap f := by
  induction l with
  | nil => rfl
  | cons x xs ih =>
    by_cases hx : p x
    · simp [List.filterMap_cons, List.filter_cons, hx, ih]
    · simp [List.filterMap_cons, List.filter_cons, hx, ih]

/-- Whether no fresh cache entry exists for the normalized URL (the scan must
consult the subprocess). -/
def VideoScanner.cacheStale (st : VideoScanner.State) (u : Str) (now : Nat) :
    Prop :=
  ∀ e, st.cache (VideoScanner.normalizeUrl u) = some e →
    st.cache_duration ≤ now - e.timestamp

/-- C4 (amended): `scan_channel_videos` fails iff the subprocess exits non-zero
(the error carrying the captured stderr) or its stdout is not valid UTF-8; on
a fresh cache hit it returns the cached list; and for decodable output it
returns exactly the per-line parses, skipping blank and malformed lines — the
parsed records are the `parse`-successes of the non-blank lines. -/
theorem scan_channel_videos_error_paths
    (parse : Str → Option VideoScanner.VideoMetadata)
    (run : Str → VideoScanner.ProcOutput) (st : VideoScanner.State)
    (u : Str) (now : Nat) :
    (∀ e, st.cache (VideoScanner.normalizeUrl u) = some e →
      now - e.timestamp < st.cache_duration →
      (VideoScanner.scan_channel_videos parse run st u now).1 =
        .ok e.videos) ∧
    (VideoScanner.cacheStale st u now →
      (run (VideoScanner.normalizeUrl u)).success = false →
      (VideoScanner.scan_channel_videos parse run st u now).1 =
        .error (.ytDlpFailed (run (VideoScanner.normalizeUrl u)).stderr)) ∧
    (VideoScanner.cacheStale st u now →
      (run (VideoScanner.normalizeUrl u)).success = true →
      Utf8.decode (run (VideoScanner.normalizeUrl u)).stdout = none →
      (VideoScanner.scan_channel_videos parse run st u now).1 =
        .error .invalidUtf8) ∧
    (∀ s, VideoScanner.cacheStale st u now →
      (run (VideoScanner.normalizeUrl u)).success = true →
      Utf8.decode (run (VideoScanner.normalizeUrl u)).stdout = some s →
      (VideoScanner.scan_channel_videos parse run st u now).1 =
        .ok (VideoScanner.parseLines parse (RustStr.rustLines s))) ∧
    (∀ lines, VideoScanner.parseLines parse lines =
      (lines.filter fun l => !(RustStr.rustTrim l).isEmpty).filterMap parse) := by
  have hstale : ∀ (hst : VideoScanner.cacheStale st u now),
      (match st.cache (VideoScanner.normalizeUrl u) with
        | some entry =>
          if now - entry.timestamp < st.cache_duration then
            some entry.videos
          else none
        | none => none) = (none : Option (List VideoScanner.VideoMetadata)) := by
    intro hst
    cases he : st.cache (VideoScanner.normalizeUrl u) with
    | none => rfl
    | some e =>
      have := hst e he
      simp [Nat.not_lt.mpr this]
  refine ⟨fun e he hfresh => ?_, fun hst hfail => ?_, fun hst hok hdec => ?_,
    fun s hst hok hdec => ?_, fun lines => ?_⟩
  · simp only [VideoScanner.scan_channel_videos, he, if_pos hfresh]
  · simp only [VideoScanner.scan_channel_videos, hstale hst]
    rw [if_pos (by simp [hfail])]
  · simp only [VideoScanner.scan_channel_videos, hstale hst]
    rw [if_neg (by simp [hok]), hdec]
  · simp only [VideoScanner.scan_channel_videos, hstale hst]
    rw [if_neg (by simp [hok]), hdec]
  · exact filterMap_if_skip (fun l => (RustStr.rustTrim l).isEmpty) parse lines

/-- A second fixed metadata record, for the lenient-parsing witness. -/
def demoMeta2 : VideoScanner.VideoMetadata :=
  { id := "2".toList, title := "u".toList, url := "https://t/v2".toList,
    duration := some 200, upload_date := none, uploader := none }

/-- A decoder oracle accepting exactly the lines `"v1"` and `"v2"`; every
other line (such as `"oops"`) is malformed. -/
def demoParse2 : Str → Option VideoScanner.VideoMetadata :=
  fun line =>
    if line = "v1".toList then some demoMeta
    else if line = "v2".toList then some demoMeta2
    else none

/-- A listing subprocess that succeeds and prints `"v1\noops\nv2\n"`. -/
def demoRun2 : Str → VideoScanner.ProcOutput :=
  fun _ =>
    { success := true,
      stdout := [0x76, 0x31, 0x0A, 0x6F, 0x6F, 0x70, 0x73, 0x0A,
        0x76, 0x32, 0x0A],
      stderr := [] }

/-- Witness for `scan_channel_videos_error_paths`: listing output with one
malformed line between two valid ones yields exactly the two valid records
(the call succeeds), and a failing subprocess yields the error carrying its
stderr. -/
theorem scan_channel_videos_error_paths_witness :
    (VideoScanner.scan_channel_videos demoParse2 demoRun2 demoScanner
      demoU1 5).1 = .ok [demoMeta, demoMeta2] ∧
    (VideoScanner.scan_channel_videos demoParse2
      (fun _ => { success := false, stdout := [], stderr := "boom".toList })
      demoScanner demoU1 5).1 = .error (.ytDlpFailed "boom".toList) := by
  constructor
  · have h := (scan_channel_videos_error_paths demoParse2 demoRun2 demoScanner
      demoU1 5).2.2.2.1 "v1\noops\nv2\n".toList
      (fun e he => Option.noConfusion he) rfl rfl
    rw [h]
    have hp : VideoScanner.parseLines demoParse2
        (RustStr.rustLines "v1\noops\nv2\n".toList) =
        [demoMeta, demoMeta2] := by decide
    rw [hp]
  · exact (scan_channel_videos_error_paths demoParse2
      (fun _ => { success := false, stdout := [], stderr := "boom".toList })
      demoScanner demoU1 5).2.1 (fun e he => Option.noConfusion he) rfl

/-- Helper: `find?` only depends on the predicate's values. -/
theorem find?_congrP {α : Type} {p q : α → Bool} (h : ∀ a, p a = q a) :
    ∀ l : List α, l.find? p = l.find? q
  | [] => rfl
  | x :: xs => by
    rw [List.find?_cons, List.find?_cons, h x]
    cases q x <;> simp [find?_congrP h xs]

/-- Inner-loop lemma for C3: scanning one directory's entries returns the
first entry that is a regular file whose effective (memoized-else-probed)
duration lies strictly within 5.0 of the target, and the updated memo credits
every path with the same effective duration as before. -/
theorem scanDirEntries_spec (fs : VideoScanner.Fs) (t : ℚ) :
    ∀ (ps : List Str) (memo : Str → Option ℚ),
      (VideoScanner.scanDirEntries fs t ps memo).1 =
        ps.find? (VideoScanner.durationMatches fs memo t) ∧
      ∀ q, VideoScanner.effectiveDuration fs
          (VideoScanner.scanDirEntries fs t ps memo).2 q =
        VideoScanner.effectiveDuration fs memo q := by
  intro ps
  induction ps with
  | nil => exact fun memo => ⟨rfl, fun q => rfl⟩
  | cons p ps ih =>
    intro memo
    cases hf : fs.is_file p with
    | false =>
      have hm : VideoScanner.durationMatches fs memo t p = false := by
        simp [VideoScanner.durationMatches, hf]
      refine ⟨?_, fun q => ?_⟩
      · rw [List.find?_cons, hm]
        simp only [VideoScanner.scanDirEntries, hf]
        simp [(ih memo).1]
      · simp only [VideoScanner.scanDirEntries, hf]
        simp [(ih memo).2 q]
    | true =>
      cases hmem : memo p with
      | some d =>
        have heff : VideoScanner.effectiveDuration fs memo p = some d := by
          simp [VideoScanner.effectiveDuration, hmem]
        by_cases hd : |d - t| < 5
        · have hm : VideoScanner.durationMatches fs memo t p = true := by
            simp [VideoScanner.durationMatches, hf, heff, hd]
          refine ⟨?_, fun q => ?_⟩
          · rw [List.find?_cons, hm]
            simp [VideoScanner.scanDirEntries, hf, hmem, hd]
          · simp [VideoScanner.scanDirEntries, hf, hmem, hd]
        · have hm : VideoScanner.durationMatches fs memo t p = false := by
            simp [VideoScanner.durationMatches, hf, heff, hd]
          refine ⟨?_, fun q => ?_⟩
          · rw [List.find?_cons, hm]
            simp [VideoScanner.scanDirEntries, hf, hmem, hd, (ih memo).1]
          · simp [VideoScanner.scanDirEntries, hf, hmem, hd, (ih memo).2 q]
      | none =>
        cases hprobe : fs.ffprobe p with
        | none =>
          have heff : VideoScanner.effectiveDuration fs memo p = none := by
            simp [VideoScanner.effectiveDuration, hmem, hprobe]
          have hm : VideoScanner.durationMatches fs memo t p = false := by
            simp [VideoScanner.durationMatches, hf, heff]
          refine ⟨?_, fun q => ?_⟩
          · rw [List.find?_cons, hm]
            simp [VideoScanner.scanDirEntries, hf, hmem, hprobe, (ih memo).1]
          · simp [VideoScanner.scanDirEntries, hf, hmem, hprobe,
              (ih memo).2 q]
        | some d =>
          have heffupd : ∀ q, VideoScanner.effectiveDuration fs
              (Function.update memo p (some d)) q =
              VideoScanner.effectiveDuration fs memo q := by
            intro q
            by_cases hq : q = p
            · subst hq
              simp [VideoScanner.effectiveDuration, Function.update_same,
                hmem, hprobe]
            · simp [VideoScanner.effectiveDuration, Function.update_noteq hq]
          have heff : VideoScanner.effectiveDuration fs memo p = some d := by
            simp [VideoScanner.effectiveDuration, hmem, hprobe]
          by_cases hd : |d - t| < 5
          · have hm : VideoScanner.durationMatches fs memo t p = true := by
              simp [VideoScanner.durationMatches, hf, heff, hd]
            refine ⟨?_, fun q => ?_⟩
            · rw [List.find?_cons, hm]
              simp [VideoScanner.scanDirEntries, hf, hmem, hprobe, hd]
            · simp [VideoScanner.scanDirEntries, hf, hmem, hprobe, hd,
                heffupd q]
          · have hm : VideoScanner.durationMatches fs memo t p = false := by
              simp [VideoScanner.durationMatches, hf, heff, hd]
            have hcong : ∀ a, VideoScanner.durationMatches fs
                (Function.update memo p (some d)) t a =
                VideoScanner.durationMatches fs memo t a := by
              intro a
              simp [VideoScanner.durationMatches, heffupd a]
            refine ⟨?_, fun q => ?_⟩
            · rw [List.find?_cons, hm]
              simp only [VideoScanner.scanDirEntries, hf, hmem, hprobe]
              rw [if_neg hd]
              simp only [Bool.not_true]
              rw [if_neg Bool.false_ne_true]
              rw [(ih _).1, find?_congrP hcong ps]
            · simp only [VideoScanner.scanDirEntries, hf, hmem, hprobe]
              rw [if_neg hd]
              simp only [Bool.not_true]
              rw [if_neg Bool.false_ne_true]
              exact ((ih _).2 q).trans (heffupd q)

/-- Outer-loop lemma for C3: scanning the storage roots returns the first
matching file across all roots in root order, and preserves every path's
effective duration. -/
theorem scanStorageRoots_spec (fs : VideoScanner.Fs) (t : ℚ) (ch : Str) :
    ∀ (roots : List Str) (memo : Str → Option ℚ),
      (VideoScanner.scanStorageRoots fs t ch roots memo).1 =
        (VideoScanner.allChannelFiles fs ch roots).find?
          (VideoScanner.durationMatches fs memo t) ∧
      ∀ q, VideoScanner.effectiveDuration fs
          (VideoScanner.scanStorageRoots fs t ch roots memo).2 q =
        VideoScanner.effectiveDuration fs memo q := by
  intro roots
  induction roots with
  | nil => exact fun memo => ⟨rfl, fun q => rfl⟩
  | cons r rs ih =>
    intro memo
    have hall : VideoScanner.allChannelFiles fs ch (r :: rs) =
        ((fs.read_dir (VideoScanner.pathJoin r ch)).getD []) ++
          VideoScanner.allChannelFiles fs ch rs := by
      simp [VideoScanner.allChannelFiles]
    cases hdir : fs.read_dir (VideoScanner.pathJoin r ch) with
    | none =>
      refine ⟨?_, fun q => ?_⟩
      · simp only [VideoScanner.scanStorageRoots, hdir]
        rw [(ih memo).1, hall, hdir]
        simp
      · simp only [VideoScanner.scanStorageRoots, hdir]
        exact (ih memo).2 q
    | some entries =>
      obtain ⟨hfst, hsnd⟩ := scanDirEntries_spec fs t entries memo
      have hcong : ∀ a, VideoScanner.durationMatches fs
          (VideoScanner.scanDirEntries fs t entries memo).2 t a =
          VideoScanner.durationMatches fs memo t a := by
        intro a
        simp [VideoScanner.durationMatches, hsnd a]
      cases hscan : VideoScanner.scanDirEntries fs t entries memo with
      | mk res memo2 =>
        rw [hscan] at hfst
        cases res with
        | some p =>
          refine ⟨?_, fun q => ?_⟩
          · simp only [VideoScanner.scanStorageRoots, hdir, hscan]
            rw [hall, hdir, List.find?_append]
            simp only [Option.getD_some]
            rw [← hfst]
            simp
          · simp only [VideoScanner.scanStorageRoots, hdir, hscan]
            have := hsnd q
            rw [hscan] at this
            exact this
        | none =>
          refine ⟨?_, fun q => ?_⟩
          · simp only [VideoScanner.scanStorageRoots, hdir, hscan]
            rw [(ih memo2).1, hall, hdir, List.find?_append]
            simp only [Option.getD_some]
            rw [← hfst]
            have hcong2 : ∀ a, VideoScanner.durationMatches fs memo2 t a =
                VideoScanner.durationMatches fs memo t a := by
              intro a
              have := hcong a
              rw [hscan] at this
              exact this
            rw [find?_congrP hcong2]
            simp
          · simp only [VideoScanner.scanStorageRoots, hdir, hscan]
            have h2 := (ih memo2).2 q
            have h3 := hsnd q
            rw [hscan] at h3
            exact h2.trans h3

/-- C3: `is_video_downloaded` returns `none` at once when the target duration
is absent (leaving the state untouched); otherwise it returns exactly the
first regular file, in the fixed storage-root iteration order, whose effective
duration is strictly within 5.0 seconds of the target — and it returns a match
iff such a file exists (non-existent directories contribute no entries and
unprobeable files never match). -/
theorem is_video_downloaded_first_match (fs : VideoScanner.Fs)
    (st : VideoScanner.State) (ch : Str) :
    VideoScanner.is_video_downloaded fs st ch none = (none, st) ∧
    (∀ t : ℚ, (VideoScanner.is_video_downloaded fs st ch (some t)).1 =
      (VideoScanner.allChannelFiles fs ch st.storage_paths).find?
        (VideoScanner.durationMatches fs st.file_durations_cache t)) ∧
    (∀ t : ℚ,
      ((VideoScanner.is_video_downloaded fs st ch (some t)).1).isSome ↔
      ∃ p ∈ VideoScanner.allChannelFiles fs ch st.storage_paths,
        VideoScanner.durationMatches fs st.file_durations_cache t p = true) := by
  have hmain : ∀ t : ℚ,
      (VideoScanner.is_video_downloaded fs st ch (some t)).1 =
      (VideoScanner.allChannelFiles fs ch st.storage_paths).find?
        (VideoScanner.durationMatches fs st.file_durations_cache t) := by
    intro t
    simp only [VideoScanner.is_video_downloaded]
    exact (scanStorageRoots_spec fs t ch st.storage_paths
      st.file_durations_cache).1
  refine ⟨rfl, hmain, fun t => ?_⟩
  rw [hmain t]
  exact List.find?_isSome

/-- A filesystem with one channel directory under the first storage root,
holding one file of probed duration 124.9 seconds. -/
def demoFs1 : VideoScanner.Fs :=
  { read_dir := fun d =>
      if d = "/run/mount/ve_stock_1/chan".toList then
        some ["/run/mount/ve_stock_1/chan/a.mp4".toList]
      else none,
    is_file := fun _ => true,
    ffprobe := fun p =>
      if p = "/run/mount/ve_stock_1/chan/a.mp4".toList then
        some ((1249 : ℚ) / 10)
      else none }

/-- Like `demoFs1` but the file probes at exactly 125.0 seconds. -/
def demoFs2 : VideoScanner.Fs :=
  { read_dir := fun d =>
      if d = "/run/mount/ve_stock_1/chan".toList then
        some ["/run/mount/ve_stock_1/chan/a.mp4".toList]
      else none,
    is_file := fun _ => true,
    ffprobe := fun p =>
      if p = "/run/mount/ve_stock_1/chan/a.mp4".toList then
        some (125 : ℚ)
      else none }

/-- Witness for `is_video_downloaded_first_match`: with target 120.0 a file of
duration 124.9 (difference 4.9 < 5.0) matches, a file of duration exactly
125.0 (difference 5.0) does not, and an absent target duration returns `none`
immediately. -/
theorem is_video_downloaded_first_match_witness :
    (VideoScanner.is_video_downloaded demoFs1 demoScanner "chan".toList
      (some 120)).1 = some "/run/mount/ve_stock_1/chan/a.mp4".toList ∧
    (VideoScanner.is_video_downloaded demoFs2 demoScanner "chan".toList
      (some 120)).1 = none ∧
    VideoScanner.is_video_downloaded demoFs1 demoScanner "chan".toList none =
      (none, demoScanner) := by
  have harith : |(1249 : ℚ)/10 - 120| < 5 := by
    rw [show (1249 : ℚ)/10 - 120 = 49/10 by norm_num]
    rw [abs_of_nonneg (by norm_num : (0 : ℚ) ≤ 49/10)]
    norm_num
  have hfar : ¬ |(125 : ℚ) - 120| < 5 := by
    rw [show (125 : ℚ) - 120 = 5 by norm_num]
    rw [abs_of_nonneg (by norm_num : (0 : ℚ) ≤ 5)]
    exact lt_irrefl 5
  refine ⟨?_, ?_, ?_⟩
  · have h := (is_video_downloaded_first_match demoFs1 demoScanner
      "chan".toList).2.1 120
    rw [h]
    have h1 : VideoScanner.allChannelFiles demoFs1 "chan".toList
        demoScanner.storage_paths =
        ["/run/mount/ve_stock_1/chan/a.mp4".toList] := by decide
    have heff : VideoScanner.effectiveDuration demoFs1
        demoScanner.file_durations_cache
        "/run/mount/ve_stock_1/chan/a.mp4".toList =
        some ((1249 : ℚ)/10) := rfl
    have h2 : VideoScanner.durationMatches demoFs1
        demoScanner.file_durations_cache 120
        "/run/mount/ve_stock_1/chan/a.mp4".toList = true := by
      simp only [VideoScanner.durationMatches, heff]
      rw [decide_eq_true harith]
      rfl
    rw [h1, List.find?_cons, h2]
  · have h := (is_video_downloaded_first_match demoFs2 demoScanner
      "chan".toList).2.1 120
    rw [h]
    have h1 : VideoScanner.allChannelFiles demoFs2 "chan".toList
        demoScanner.storage_paths =
        ["/run/mount/ve_stock_1/chan/a.mp4".toList] := by decide
    have heff : VideoScanner.effectiveDuration demoFs2
        demoScanner.file_durations_cache
        "/run/mount/ve_stock_1/chan/a.mp4".toList = some (125 : ℚ) := rfl
    have h2 : VideoScanner.durationMatches demoFs2
        demoScanner.file_durations_cache 120
        "/run/mount/ve_stock_1/chan/a.mp4".toList = false := by
      simp only [VideoScanner.durationMatches, heff]
      rw [decide_eq_false hfar]
      rfl
    rw [h1, List.find?_cons, h2]
    rfl
  · exact (is_video_downloaded_first_match demoFs1 demoScanner
      "chan".toList).1
